import Mathlib

/-!
Shallow embedding of `rumour_collation.py` (CuriousNPC/MA_rumours).

The script's dataframe pipeline is modelled with:
* `Val` — a cell value (string or number; numbers as `ℚ`);
* `Row` — an association list from column names to values (a pandas record
  built from a Python dict has unique keys);
* `DataFrame` — a column-name list plus a list of rows.  `pd.DataFrame([])`
  built from an empty record list has an empty column index, and subscripting
  a missing column raises `KeyError`; column access is therefore `Except`.
Sentiment analysis delegates to TextBlob, an external collaborator; it is a
parameter `pol : String → ℚ` of the embedding, constrained in theorems by the
contract the specification states for it (polarity in `[-1, 1]`, empty text
scores `0`).
-/

instance {ε α : Type} [DecidableEq ε] [DecidableEq α] : DecidableEq (Except ε α) := fun
  | .error a, .error b =>
      if h : a = b then .isTrue (by rw [h]) else .isFalse (by simp [h])
  | .error _, .ok _ => .isFalse (by simp)
  | .ok _, .error _ => .isFalse (by simp)
  | .ok a, .ok b =>
      if h : a = b then .isTrue (by rw [h]) else .isFalse (by simp [h])

inductive Val where
  | str (s : String)
  | num (q : ℚ)
deriving DecidableEq

def asStr : Val → String
  | Val.str s => s
  | Val.num _ => ""

def asNum : Val → ℚ
  | Val.str _ => 0
  | Val.num q => q

abbrev Row := List (String × Val)

/-- Value of a column in one record (first matching key, as in a dict). -/
def lookupVal : Row → String → Val
  | [], _ => Val.str ""
  | p :: r, c => if p.1 = c then p.2 else lookupVal r c

/-- Dict-style update: replace the first binding of `c`, else append it. -/
def setField : Row → String → Val → Row
  | [], c, v => [(c, v)]
  | p :: r, c, v => if p.1 = c then (c, v) :: r else p :: setField r c v

structure DataFrame where
  cols : List String
  rows : List Row
deriving DecidableEq

/-- Column index pandas infers from a list of dicts: union of the rows'
keys in order of first appearance (empty list of records gives an empty
column index). -/
def mkCols (rows : List Row) : List String :=
  rows.foldl (fun acc r => acc ++ ((r.map Prod.fst).filter (fun c => !(acc.contains c)))) []

def mkDataFrame (rows : List Row) : DataFrame :=
  ⟨mkCols rows, rows⟩

/-- `df[c]`: the column as a list of values, or a `KeyError` when the column
is not in the frame's column index. -/
def getCol (df : DataFrame) (c : String) : Except String (List Val) :=
  if c ∈ df.cols then .ok (df.rows.map (fun r => lookupVal r c)) else .error ("KeyError: " ++ c)

/-- `df[c] = vals`: set a whole column. -/
def setCol (df : DataFrame) (c : String) (vals : List Val) : DataFrame :=
  ⟨if c ∈ df.cols then df.cols else df.cols ++ [c],
   List.zipWith (fun r v => setField r c v) df.rows vals⟩

/-- The cell at row `i`, column `c` (`none` when the row index is out of
range). -/
def getCell (df : DataFrame) (i : Nat) (c : String) : Option Val :=
  (df.rows[i]?).map (fun r => lookupVal r c)

/-- Python's `str.lower` on the character list (ASCII case folding). -/
def lowerStr (s : String) : List Char :=
  s.data.map Char.toLower

/-- Python's substring test `needle in hay`. -/
def occursIn (needle hay : List Char) : Bool :=
  hay.tails.any (fun t => needle.isPrefixOf t)

/-- The per-record keyword flag of `keyword_analysis`:
`1 if keyword.lower() in x.lower() else 0`. -/
def flagVal (kw text : String) : ℚ :=
  if occursIn (lowerStr kw) (lowerStr text) then 1 else 0

def MERGER_KEYWORDS : List String := [
  "merger", "acquisition", "buyout", "takeover", "consolidation",
  "join forces", "strategic partnership", "corporate restructuring",
  "company integration", "synergy", "hostile bid", "tender offer",
  "acquiring stake", "majority shareholder"]

def LAYOFF_KEYWORDS : List String := [
  "layoff", "downsizing", "restructuring", "job cuts", "redundancies",
  "workforce reduction", "pink slip", "let go", "fired", "termination",
  "cost-cutting measures", "headcount reduction"]

def REASSIGNMENT_KEYWORDS : List String := [
  "reassignment", "reallocation", "new role", "position change",
  "department transfer", "job rotation", "shifting responsibilities",
  "organizational changes", "new manager", "reporting structure change"]

def REDUCED_WORKLOAD_KEYWORDS : List String := [
  "reduced workload", "less work", "slow period", "downtime",
  "bench time", "low utilization", "project cancellation", "on hold",
  "delayed start", "reduced hours", "forced vacation"]

/-- `sentiment_analysis(df, text_column)`:
`df['sentiment'] = df[text_column].apply(lambda x: TextBlob(x).sentiment.polarity)`.
The TextBlob polarity is the parameter `pol`. -/
def sentiment_analysis (pol : String → ℚ) (df : DataFrame) (text_column : String) :
    Except String DataFrame := do
  let texts ← getCol df text_column
  .ok (setCol df "sentiment" (texts.map (fun v => Val.num (pol (asStr v)))))

/-- One iteration of the keyword loop:
`df[f'{column_prefix}_{keyword}'] = df[text_column].apply(lambda x: 1 if keyword.lower() in x.lower() else 0)`. -/
def kaStep (text_column pfx : String) (d : DataFrame) (kw : String) :
    Except String DataFrame := do
  let texts ← getCol d text_column
  .ok (setCol d (pfx ++ "_" ++ kw) (texts.map (fun v => Val.num (flagVal kw (asStr v)))))

/-- `keyword_analysis(df, text_column, keywords, column_prefix)`: one flag
column per keyword, then the score column
`df[[...flag columns...]].sum(axis=1)`. -/
def keyword_analysis (df : DataFrame) (text_column : String) (keywords : List String)
    (pfx : String) : Except String DataFrame := do
  let df1 ← keywords.foldlM (kaStep text_column pfx) df
  .ok (setCol df1 (pfx ++ "_score")
    (df1.rows.map (fun r =>
      Val.num ((keywords.map (fun kw => asNum (lookupVal r (pfx ++ "_" ++ kw)))).sum))))

/-- `calculate_signal_strength(df, column_prefix)`: the score column is
summed before the emptiness guard, exactly as in the source. -/
def calculate_signal_strength (df : DataFrame) (pfx : String) : Except String ℚ := do
  let scores ← getCol df (pfx ++ "_score")
  let total_mentions := (scores.map asNum).sum
  let total_posts := df.rows.length
  if total_posts > 0 then
    .ok ((total_mentions / (total_posts : ℚ)) * 100)
  else
    .ok 0

/-! ## Entity extraction

`extract_companies` runs `re.findall(r'\b[A-Z][a-z]+ (?:Inc|Corp|Co|Ltd)\b', text)`.
The scanner below reproduces the regex engine's behaviour on this pattern:
at each position, a match needs a word boundary, one `[A-Z]` character, a
maximal non-empty run of `[a-z]` (no shorter run can succeed, since the
character ending the run is not a space), a space, then the first
alternative among `Inc`, `Corp`, `Co`, `Ltd` that is present and followed
by a word boundary; `findall` resumes scanning at the end of each match. -/

def isWordChar (c : Char) : Bool := c.isAlpha || c.isDigit || c == '_'

def isUpperAZ (c : Char) : Bool := 'A' ≤ c && c ≤ 'Z'

def isLowerAZ (c : Char) : Bool := 'a' ≤ c && c ≤ 'z'

/-- `\b` before the first (word) character of a candidate match. -/
def boundaryBefore : Option Char → Bool
  | none => true
  | some c => !isWordChar c

/-- `\b` after the last (word) character of a candidate match. -/
def boundaryAfterOK : List Char → Bool
  | [] => true
  | c :: _ => !isWordChar c

def suffixTokens : List String := ["Inc", "Corp", "Co", "Ltd"]

/-- Try the suffix alternatives in the regex's order; on success return the
consumed characters and the remainder of the input. -/
def trySfx (rest : List Char) : List String → Option (List Char × List Char)
  | [] => none
  | s :: ss =>
    if s.data.isPrefixOf rest && boundaryAfterOK (rest.drop s.data.length) then
      some (s.data, rest.drop s.data.length)
    else trySfx rest ss

/-- One match attempt at the current position; `prev` is the character just
before the position (for `\b`). Returns the matched characters and the rest
of the input after the match. -/
def matchCompany (prev : Option Char) (l : List Char) : Option (List Char × List Char) :=
  match l with
  | [] => none
  | c :: rest =>
    if boundaryBefore prev && isUpperAZ c then
      if rest.takeWhile isLowerAZ = [] then none
      else
        match rest.dropWhile isLowerAZ with
        | ' ' :: rest2 =>
          match trySfx rest2 suffixTokens with
          | some (sd, rest3) => some (c :: (rest.takeWhile isLowerAZ ++ ' ' :: sd), rest3)
          | none => none
        | _ => none
    else none

/-- The scan loop of `findall`: advance one character on failure, or past the
match on success. Fuel-indexed so that the definition is structurally
recursive (hence kernel-computable); every step consumes at least one
character, so fuel equal to the input length is always sufficient. -/
def scanFuel : Nat → Option Char → List Char → List String
  | 0, _, _ => []
  | _ + 1, _, [] => []
  | fuel + 1, prev, c :: rest =>
    match matchCompany prev (c :: rest) with
    | some (m, rest') => String.mk m :: scanFuel fuel (some (m.getLastD c)) rest'
    | none => scanFuel fuel (some c) rest

def extract_companies (text : String) : List String :=
  scanFuel text.data.length none text.data

/-! ## Counter and most_common -/

/-- Counting step of `collections.Counter`: bump an existing entry in place,
or append a new entry (dict insertion order). -/
def tallyStep (acc : List (String × Nat)) (a : String) : List (String × Nat) :=
  if acc.any (fun p => p.1 == a) then
    acc.map (fun p => if p.1 == a then (p.1, p.2 + 1) else p)
  else acc ++ [(a, 1)]

/-- `collections.Counter` built from a list: entries appear in order of first
encounter, with their multiplicities. -/
def tally (l : List String) : List (String × Nat) :=
  l.foldl tallyStep []

def firstOccsStep (acc : List String) (a : String) : List String :=
  if a ∈ acc then acc else acc ++ [a]

/-- The names of a list in order of first occurrence. -/
def firstOccs (l : List String) : List String :=
  l.foldl firstOccsStep []

/-- Descending-count order used by `Counter.most_common`. -/
def descRel (a b : String × Nat) : Prop := b.2 ≤ a.2

instance : DecidableRel descRel := fun a b => Nat.decLe b.2 a.2

instance : IsTotal (String × Nat) descRel := ⟨fun a b => Nat.le_total b.2 a.2⟩

instance : IsTrans (String × Nat) descRel := ⟨fun _ _ _ h1 h2 => Nat.le_trans h2 h1⟩

/-- `Counter.most_common(n)`: a stable sort by descending count (equal counts
keep insertion order), truncated to `n` entries. -/
def most_common (n : Nat) (counter : List (String × Nat)) : List (String × Nat) :=
  (List.insertionSort descRel counter).take n

/-! ## The per-forum pipeline (`analyze_company`)

Only the computational path is embedded: directory creation, logging,
plotting and the CSV/report writes are I/O and are outside the model; the
report's numeric and entity content is returned as a `Report` value. -/

structure Report where
  merger_signal : ℚ
  layoff_signal : ℚ
  reassign_signal : ℚ
  reduced_work_signal : ℚ
  companies : List (String × Nat)
deriving DecidableEq

/-- Annotation of the post frame: `full_text = title + ' ' + body`, then
sentiment, then the four keyword analyses, as in `analyze_company`. -/
def annotatePosts (pol : String → ℚ) (posts : List Row) : Except String DataFrame := do
  let df := mkDataFrame posts
  let titles ← getCol df "title"
  let bodies ← getCol df "body"
  let df := setCol df "full_text"
    (List.zipWith (fun t b => Val.str (asStr t ++ " " ++ asStr b)) titles bodies)
  let df ← sentiment_analysis pol df "full_text"
  let df ← keyword_analysis df "full_text" MERGER_KEYWORDS "merger"
  let df ← keyword_analysis df "full_text" LAYOFF_KEYWORDS "layoff"
  let df ← keyword_analysis df "full_text" REASSIGNMENT_KEYWORDS "reassign"
  let df ← keyword_analysis df "full_text" REDUCED_WORKLOAD_KEYWORDS "reduced_work"
  .ok df

/-- Annotation of the comment frame, over `comment_body`. -/
def annotateComments (pol : String → ℚ) (comments : List Row) : Except String DataFrame := do
  let df := mkDataFrame comments
  let df ← sentiment_analysis pol df "comment_body"
  let df ← keyword_analysis df "comment_body" MERGER_KEYWORDS "merger"
  let df ← keyword_analysis df "comment_body" LAYOFF_KEYWORDS "layoff"
  let df ← keyword_analysis df "comment_body" REASSIGNMENT_KEYWORDS "reassign"
  let df ← keyword_analysis df "comment_body" REDUCED_WORKLOAD_KEYWORDS "reduced_work"
  .ok df

/-- `analyze_company`, from the fetched records to the report's content:
annotate both frames, extract and tally companies from the joined text, and
add post-level and comment-level signal strengths per category. -/
def analyze_company (pol : String → ℚ) (posts comments : List Row) :
    Except String Report := do
  let posts_df ← annotatePosts pol posts
  let comments_df ← annotateComments pol comments
  let ptexts ← getCol posts_df "full_text"
  let ctexts ← getCol comments_df "comment_body"
  let all_text := String.intercalate " " (ptexts.map asStr) ++ " " ++
    String.intercalate " " (ctexts.map asStr)
  let companies := extract_companies all_text
  let company_counts := most_common 10 (tally companies)
  let pm ← calculate_signal_strength posts_df "merger"
  let cm ← calculate_signal_strength comments_df "merger"
  let pl ← calculate_signal_strength posts_df "layoff"
  let cl ← calculate_signal_strength comments_df "layoff"
  let pr ← calculate_signal_strength posts_df "reassign"
  let cr ← calculate_signal_strength comments_df "reassign"
  let pw ← calculate_signal_strength posts_df "reduced_work"
  let cw ← calculate_signal_strength comments_df "reduced_work"
  .ok ⟨pm + cm, pl + cl, pr + cr, pw + cw, company_counts⟩

/-! ## Concrete inputs used by the witness theorems -/

def wRow : Row := [("full_text", Val.str "One merger story")]

def wDf : DataFrame := mkDataFrame [wRow]

def wKa : DataFrame :=
  ((keyword_analysis wDf "full_text" ["merger"] "merger").toOption).getD (mkDataFrame [])

def wSent : DataFrame :=
  ((sentiment_analysis (fun _ => 0) wDf "full_text").toOption).getD (mkDataFrame [])

def wPosts : List Row :=
  [[("title", Val.str "Big merger at Acme Corp"), ("body", Val.str "An acquisition maybe")]]

def wComments : List Row := [[("comment_body", Val.str "Sample Inc layoff rumour")]]

def wRep : Report := ⟨200, 100, 0, 0, [("Acme Corp", 1), ("Sample Inc", 1)]⟩

/-! ## Basic frame lemmas -/

theorem ok_bind {ε α β : Type} (a : α) (f : α → Except ε β) :
    (Except.ok a >>= f : Except ε β) = f a := rfl

theorem error_bind {ε α β : Type} (e : ε) (f : α → Except ε β) :
    (Except.error e >>= f : Except ε β) = .error e := rfl

theorem lookupVal_setField_same (r : Row) (c : String) (v : Val) :
    lookupVal (setField r c v) c = v := by
  induction r with
  | nil => simp [setField, lookupVal]
  | cons p r ih =>
    by_cases h : p.1 = c
    · simp [setField, h, lookupVal]
    · simp [setField, h, lookupVal, ih]

theorem lookupVal_setField_ne (r : Row) {c c' : String} (v : Val) (h : c' ≠ c) :
    lookupVal (setField r c v) c' = lookupVal r c' := by
  induction r with
  | nil => simp [setField, lookupVal, Ne.symm h]
  | cons p r ih =>
    by_cases hp : p.1 = c
    · simp [setField, hp, lookupVal, Ne.symm h]
    · simp [setField, hp, lookupVal, ih]

theorem rows_setCol_length (df : DataFrame) (c : String) (vals : List Val)
    (h : vals.length = df.rows.length) :
    (setCol df c vals).rows.length = df.rows.length := by
  simp [setCol, h]

theorem getCell_setCol_same (df : DataFrame) (c : String) (vals : List Val) (i : Nat)
    {r : Row} {v : Val} (hr : df.rows[i]? = some r) (hv : vals[i]? = some v) :
    getCell (setCol df c vals) i c = some v := by
  simp only [getCell, setCol]
  rw [List.getElem?_zipWith']
  simp [hr, hv, lookupVal_setField_same]

theorem getCell_setCol_ne (df : DataFrame) {c c' : String} (vals : List Val) (i : Nat)
    (h : c' ≠ c) (hlen : vals.length = df.rows.length) :
    getCell (setCol df c vals) i c' = getCell df i c' := by
  simp only [getCell, setCol]
  rw [List.getElem?_zipWith']
  cases hr : df.rows[i]? with
  | none => simp [hr]
  | some r =>
    have hi : i < df.rows.length := by
      by_contra hge
      rw [List.getElem?_eq_none (by omega)] at hr
      exact absurd hr (by simp)
    have hi' : i < vals.length := by omega
    obtain ⟨v, hv⟩ : ∃ v, vals[i]? = some v := ⟨vals[i], List.getElem?_eq_getElem hi'⟩
    simp [hr, hv, lookupVal_setField_ne _ _ h]

theorem cols_setCol_mem (df : DataFrame) (c c' : String) (vals : List Val)
    (h : c' ∈ df.cols) : c' ∈ (setCol df c vals).cols := by
  simp only [setCol]
  split
  · exact h
  · exact List.mem_append_left _ h

/-! ## C2: signal strength of an empty record set -/

/-- C2: `calculate_signal_strength` applied to an empty record collection
(record count 0, with the category's score column in the schema) returns
exactly `0` via the `total_posts > 0` guard; no division is attempted, so
no division error can be raised, for every category prefix. -/
theorem claim2_empty_signal_zero (df : DataFrame) (pfx : String)
    (h0 : df.rows = []) (hc : pfx ++ "_score" ∈ df.cols) :
    calculate_signal_strength df pfx = .ok 0 := by
  simp only [calculate_signal_strength, getCol, if_pos hc, h0]
  rfl

theorem claim2_witness :
    calculate_signal_strength ⟨["merger_score"], []⟩ "merger" = .ok 0 :=
  claim2_empty_signal_zero ⟨["merger_score"], []⟩ "merger" rfl (by decide)

/-! ## C1: the signal-strength formula -/

/-- C1: on every non-empty record set carrying the category's score column,
`calculate_signal_strength` equals (sum of score column / record count) * 100;
on the synthetic 3-post forum where exactly one post's `full_text` contains
the keyword "merger" and no other merger keyword, the merger signal is
(1/3)*100; and some record set yields a signal above 100. -/
theorem claim1_signal_formula :
    (∀ (df : DataFrame) (pfx : String) (scores : List Val),
        getCol df (pfx ++ "_score") = .ok scores → df.rows ≠ [] →
        calculate_signal_strength df pfx =
          .ok (((scores.map asNum).sum / ((df.rows.length : ℚ))) * 100))
    ∧ ((keyword_analysis (mkDataFrame
          [[("full_text", Val.str "Big merger incoming")],
           [("full_text", Val.str "Nothing to see here")],
           [("full_text", Val.str "Quiet quarter ahead")]])
          "full_text" MERGER_KEYWORDS "merger").bind
          (fun d => calculate_signal_strength d "merger") = .ok ((1 / 3) * 100))
    ∧ (∃ (df : DataFrame) (pfx : String) (q : ℚ),
        calculate_signal_strength df pfx = .ok q ∧ 100 < q) := by
  refine ⟨?_, by with_unfolding_all decide, ?_⟩
  · intro df pfx scores hget hne
    have hpos : 0 < df.rows.length := List.length_pos.mpr hne
    simp only [calculate_signal_strength, hget, ok_bind]
    simp [hpos]
  · refine ⟨((keyword_analysis (mkDataFrame
        [[("full_text", Val.str "merger and acquisition ahead")]])
        "full_text" MERGER_KEYWORDS "merger").toOption).getD (mkDataFrame []),
      "merger", 200, by with_unfolding_all decide, by norm_num⟩

theorem claim1_witness :
    calculate_signal_strength ⟨["merger_score"], [[("merger_score", Val.num 2)]]⟩ "merger" =
      .ok (((([Val.num 2].map asNum).sum /
        ((([[("merger_score", Val.num 2)]] : List Row).length : ℚ))) * 100)) :=
  claim1_signal_formula.1 ⟨["merger_score"], [[("merger_score", Val.num 2)]]⟩ "merger"
    [Val.num 2] (by decide) (by decide)

/-! ## C4: a forum with zero posts -/

/-- C4: on a forum yielding zero posts, `analyze_company` does NOT produce a
zero-signal report: `pd.DataFrame([])` has an empty column index, so building
`full_text` from `posts_df['title']` raises `KeyError: 'title'` before any
aggregation happens. The claim (and §7 of the specification) says this case
is not an error; the code errors. -/
theorem claim4_empty_posts_keyerror :
    analyze_company (fun _ => 0) [] [] = .error "KeyError: title" := by decide

/-! ## C3: keyword flags and category score -/

theorem strApp_left_cancel {a b c : String} (h : a ++ b = a ++ c) : b = c := by
  apply String.ext
  have hd := congrArg String.data h
  rw [String.data_append, String.data_append] at hd
  exact List.append_cancel_left hd

theorem flagCol_inj {pfx k1 k2 : String} (h : pfx ++ "_" ++ k1 = pfx ++ "_" ++ k2) :
    k1 = k2 := strApp_left_cancel h

theorem scoreCol_eq (pfx : String) : pfx ++ "_score" = pfx ++ "_" ++ "score" :=
  (congrArg (pfx ++ ·) (rfl : ("_score" : String) = "_" ++ "score")).trans
    (String.append_assoc pfx "_" "score").symm

theorem kaStep_ok {tc pfx : String} {d : DataFrame} {kw : String} {d' : DataFrame}
    (h : kaStep tc pfx d kw = .ok d') :
    tc ∈ d.cols ∧
    d' = setCol d (pfx ++ "_" ++ kw)
      ((d.rows.map (fun r => lookupVal r tc)).map (fun v => Val.num (flagVal kw (asStr v)))) := by
  unfold kaStep getCol at h
  by_cases hc : tc ∈ d.cols
  · rw [if_pos hc, ok_bind] at h
    refine ⟨hc, ?_⟩
    injection h with h
    exact h.symm
  · rw [if_neg hc, error_bind] at h
    exact absurd h (by simp)

theorem getElem?_some_lt {α : Type} {l : List α} {i : Nat} {x : α}
    (h : l[i]? = some x) : i < l.length := by
  by_contra hge
  rw [List.getElem?_eq_none (by omega)] at h
  exact absurd h (by simp)

/-- The keyword loop leaves row count unchanged, only grows the column
index, and does not touch any cell outside the flag columns it writes. -/
theorem kaFold_preserve {tc pfx : String} :
    ∀ (keywords : List String) (d d1 : DataFrame),
      List.foldlM (kaStep tc pfx) d keywords = .ok d1 →
      d1.rows.length = d.rows.length ∧
      (∀ c, c ∈ d.cols → c ∈ d1.cols) ∧
      (∀ i c, (∀ kw ∈ keywords, c ≠ pfx ++ "_" ++ kw) → getCell d1 i c = getCell d i c)
  | [], d, d1, h => by
    simp only [List.foldlM] at h
    injection h with h
    subst h
    exact ⟨rfl, fun c hc => hc, fun i c _ => rfl⟩
  | kw0 :: rest, d, d1, h => by
    rw [List.foldlM_cons] at h
    cases e : kaStep tc pfx d kw0 with
    | error err => rw [e, error_bind] at h; exact absurd h (by simp)
    | ok dmid =>
      rw [e, ok_bind] at h
      obtain ⟨hc, hmid⟩ := kaStep_ok e
      obtain ⟨hlen, hcols, hcells⟩ := kaFold_preserve rest dmid d1 h
      subst hmid
      have hvl : ((d.rows.map (fun r => lookupVal r tc)).map
          (fun v => Val.num (flagVal kw0 (asStr v)))).length = d.rows.length := by simp
      refine ⟨by rw [hlen, rows_setCol_length _ _ _ hvl], ?_, ?_⟩
      · intro c hcmem
        exact hcols c (cols_setCol_mem _ _ _ _ hcmem)
      · intro i c hne
        rw [hcells i c (fun kw hkw => hne kw (List.mem_cons_of_mem _ hkw)),
          getCell_setCol_ne _ _ _ (hne kw0 (List.mem_cons_self _ _)) hvl]

/-- As long as no flag column clashes with the text column, the keyword loop
writes into each keyword's flag column exactly the 0/1 flag of the record's
original text. -/
theorem kaFold_flags {tc pfx : String} :
    ∀ (keywords : List String) (d d1 : DataFrame),
      (∀ kw ∈ keywords, pfx ++ "_" ++ kw ≠ tc) →
      List.foldlM (kaStep tc pfx) d keywords = .ok d1 →
      ∀ kw ∈ keywords, ∀ i r, d.rows[i]? = some r →
        getCell d1 i (pfx ++ "_" ++ kw) = some (Val.num (flagVal kw (asStr (lookupVal r tc))))
  | [], _, _, _, _ => fun kw hkw => absurd hkw (List.not_mem_nil kw)
  | kw0 :: rest, d, d1, htc, h => by
    rw [List.foldlM_cons] at h
    cases e : kaStep tc pfx d kw0 with
    | error err => rw [e, error_bind] at h; exact absurd h (by simp)
    | ok dmid =>
      rw [e, ok_bind] at h
      obtain ⟨hc, hmid⟩ := kaStep_ok e
      intro kw hkw i r hr
      have hi : i < d.rows.length := getElem?_some_lt hr
      have hvl : ((d.rows.map (fun r => lookupVal r tc)).map
          (fun v => Val.num (flagVal kw0 (asStr v)))).length = d.rows.length := by simp
      have hmidlen : dmid.rows.length = d.rows.length := by
        rw [hmid]; exact rows_setCol_length _ _ _ hvl
      obtain ⟨r1, hr1⟩ : ∃ r1, dmid.rows[i]? = some r1 := by
        cases hx : dmid.rows[i]? with
        | none => exact absurd (List.getElem?_eq_none_iff.mp hx) (by omega)
        | some r1 => exact ⟨r1, rfl⟩
      have htext : lookupVal r1 tc = lookupVal r tc := by
        have hcell : getCell dmid i tc = getCell d i tc := by
          rw [hmid]
          exact getCell_setCol_ne d _ i (Ne.symm (htc kw0 (List.mem_cons_self _ _))) hvl
        simp only [getCell, hr1, hr, Option.map_some'] at hcell
        injection hcell
      by_cases hkwrest : kw ∈ rest
      · have hrec := kaFold_flags rest dmid d1
          (fun k hk => htc k (List.mem_cons_of_mem _ hk)) h kw hkwrest i r1 hr1
        rw [htext] at hrec
        exact hrec
      · have hkw0 : kw = kw0 := by
          rcases List.mem_cons.mp hkw with h' | h'
          · exact h'
          · exact absurd h' hkwrest
        subst hkw0
        have hpres := (kaFold_preserve rest dmid d1 h).2.2 i (pfx ++ "_" ++ kw)
          (fun k hk heq => hkwrest (by rw [flagCol_inj heq]; exact hk))
        rw [hpres, hmid]
        have hv : ((d.rows.map (fun r => lookupVal r tc)).map
            (fun v => Val.num (flagVal kw (asStr v))))[i]? =
            some (Val.num (flagVal kw (asStr (lookupVal r tc)))) := by
          rw [List.getElem?_map, List.getElem?_map, hr]
          rfl
        exact getCell_setCol_same d _ _ i hr hv

theorem keyword_analysis_ok {df : DataFrame} {tc : String} {keywords : List String}
    {pfx : String} {df' : DataFrame} (h : keyword_analysis df tc keywords pfx = .ok df') :
    ∃ df1, List.foldlM (kaStep tc pfx) df keywords = .ok df1 ∧
      df' = setCol df1 (pfx ++ "_score") (df1.rows.map (fun r =>
        Val.num ((keywords.map (fun kw => asNum (lookupVal r (pfx ++ "_" ++ kw)))).sum))) := by
  unfold keyword_analysis at h
  cases e : List.foldlM (kaStep tc pfx) df keywords with
  | error err => rw [e, error_bind] at h; exact absurd h (by simp)
  | ok df1 =>
    rw [e, ok_bind] at h
    injection h with h
    exact ⟨df1, rfl, h.symm⟩

theorem flagVal_zero_or_one (kw t : String) : flagVal kw t = 0 ∨ flagVal kw t = 1 := by
  unfold flagVal
  split
  · exact Or.inr rfl
  · exact Or.inl rfl

theorem flagVal_eq_one_iff (kw t : String) :
    flagVal kw t = 1 ↔ occursIn (lowerStr kw) (lowerStr t) = true := by
  unfold flagVal
  split <;> rename_i hc
  · simpa using hc
  · constructor
    · intro h0
      exact absurd h0 (by norm_num)
    · intro hcc
      exact absurd hcc hc

theorem flag_sum_eq_countP (keywords : List String) (t : String) :
    (keywords.map (fun kw => flagVal kw t)).sum =
      ((keywords.countP (fun kw => occursIn (lowerStr kw) (lowerStr t))) : ℚ) := by
  induction keywords with
  | nil => simp
  | cons kw rest ih =>
    rw [List.map_cons, List.sum_cons, ih, List.countP_cons]
    unfold flagVal
    by_cases hc : occursIn (lowerStr kw) (lowerStr t) = true
    · simp only [hc, if_pos]
      push_cast
      ring
    · simp [hc]

/-- C3: for every record collection, text column, keyword list (with flag
columns not clashing with the text column nor with the score column) the
flags `keyword_analysis` writes are always 0 or 1, equal to 1 exactly when
the keyword occurs case-insensitively in the record's text, and the score
column holds, per record, the number of keywords in the list whose flag on
that record is 1. -/
theorem claim3_flags_and_score (df : DataFrame) (tc : String) (keywords : List String)
    (pfx : String) (df' : DataFrame)
    (htc : ∀ kw ∈ keywords, pfx ++ "_" ++ kw ≠ tc)
    (hsc : "score" ∉ keywords)
    (h : keyword_analysis df tc keywords pfx = .ok df') :
    (∀ kw ∈ keywords, ∀ i r, df.rows[i]? = some r →
      getCell df' i (pfx ++ "_" ++ kw) =
        some (Val.num (flagVal kw (asStr (lookupVal r tc)))) ∧
      (flagVal kw (asStr (lookupVal r tc)) = 0 ∨ flagVal kw (asStr (lookupVal r tc)) = 1) ∧
      (flagVal kw (asStr (lookupVal r tc)) = 1 ↔
        occursIn (lowerStr kw) (lowerStr (asStr (lookupVal r tc))) = true))
    ∧ (∀ i r, df.rows[i]? = some r →
      getCell df' i (pfx ++ "_score") = some (Val.num
        ((keywords.countP
          (fun kw => occursIn (lowerStr kw) (lowerStr (asStr (lookupVal r tc))))) : ℚ))) := by
  obtain ⟨df1, hfold, hdf'⟩ := keyword_analysis_ok h
  obtain ⟨hlen, hcols, hcells⟩ := kaFold_preserve keywords df df1 hfold
  have hscore_ne : ∀ kw ∈ keywords, pfx ++ "_" ++ kw ≠ pfx ++ "_score" := by
    intro kw hkw heq
    rw [scoreCol_eq] at heq
    exact hsc (flagCol_inj heq ▸ hkw)
  have hsvl : (df1.rows.map (fun r =>
      Val.num ((keywords.map (fun kw => asNum (lookupVal r (pfx ++ "_" ++ kw)))).sum))).length
      = df1.rows.length := by simp
  constructor
  · intro kw hkw i r hr
    refine ⟨?_, flagVal_zero_or_one kw _, flagVal_eq_one_iff kw _⟩
    have hflag := kaFold_flags keywords df df1 htc hfold kw hkw i r hr
    rw [hdf', getCell_setCol_ne df1 _ i (hscore_ne kw hkw) hsvl]
    exact hflag
  · intro i r hr
    have hi : i < df.rows.length := getElem?_some_lt hr
    obtain ⟨r1, hr1⟩ : ∃ r1, df1.rows[i]? = some r1 := by
      have hi1 : i < df1.rows.length := by omega
      cases hx : df1.rows[i]? with
      | none => exact absurd (List.getElem?_eq_none_iff.mp hx) (by omega)
      | some r1 => exact ⟨r1, rfl⟩
    have hmap : keywords.map (fun kw => asNum (lookupVal r1 (pfx ++ "_" ++ kw))) =
        keywords.map (fun kw => flagVal kw (asStr (lookupVal r tc))) := by
      apply List.map_congr_left
      intro kw hkw
      have hflag := kaFold_flags keywords df df1 htc hfold kw hkw i r hr
      simp only [getCell, hr1, Option.map_some'] at hflag
      injection hflag with hflag
      rw [hflag]
      rfl
    have hsv : (df1.rows.map (fun r =>
        Val.num ((keywords.map (fun kw => asNum (lookupVal r (pfx ++ "_" ++ kw)))).sum)))[i]? =
        some (Val.num ((keywords.countP
          (fun kw => occursIn (lowerStr kw) (lowerStr (asStr (lookupVal r tc))))) : ℚ)) := by
      rw [List.getElem?_map, hr1]
      simp only [Option.map_some']
      rw [hmap, flag_sum_eq_countP]
    rw [hdf']
    exact getCell_setCol_same df1 _ _ i hr1 hsv

theorem claim3_witness :
    (∀ kw ∈ ["merger"], ∀ i r, wDf.rows[i]? = some r →
      getCell wKa i ("merger" ++ "_" ++ kw) =
        some (Val.num (flagVal kw (asStr (lookupVal r "full_text")))) ∧
      (flagVal kw (asStr (lookupVal r "full_text")) = 0 ∨
        flagVal kw (asStr (lookupVal r "full_text")) = 1) ∧
      (flagVal kw (asStr (lookupVal r "full_text")) = 1 ↔
        occursIn (lowerStr kw) (lowerStr (asStr (lookupVal r "full_text"))) = true))
    ∧ (∀ i r, wDf.rows[i]? = some r →
      getCell wKa i ("merger" ++ "_score") = some (Val.num
        ((List.countP
          (fun kw => occursIn (lowerStr kw) (lowerStr (asStr (lookupVal r "full_text"))))
          ["merger"]) : ℚ))) :=
  claim3_flags_and_score wDf "full_text" ["merger"] "merger" wKa
    (by decide) (by decide) (by with_unfolding_all decide)

/-! ## C9: the annotators only add columns -/

theorem sentiment_analysis_ok {pol : String → ℚ} {df : DataFrame} {tc : String}
    {df1 : DataFrame} (h : sentiment_analysis pol df tc = .ok df1) :
    tc ∈ df.cols ∧
    df1 = setCol df "sentiment"
      ((df.rows.map (fun r => lookupVal r tc)).map (fun v => Val.num (pol (asStr v)))) := by
  unfold sentiment_analysis getCol at h
  by_cases hc : tc ∈ df.cols
  · rw [if_pos hc, ok_bind] at h
    refine ⟨hc, ?_⟩
    injection h with h
    exact h.symm
  · rw [if_neg hc, error_bind] at h
    exact absurd h (by simp)

/-- C9: `sentiment_analysis` and `keyword_analysis` keep the number and the
order of the records, and leave every cell outside the columns they add
(`sentiment`; the per-keyword flag columns and the score column) unchanged.
Both are pure functions of the frame in this embedding — no I/O occurs. -/
theorem claim9_frame_preservation (pol : String → ℚ) (df : DataFrame) (tc : String)
    (keywords : List String) (pfx : String) (dfs dfk : DataFrame)
    (hs : sentiment_analysis pol df tc = .ok dfs)
    (hk : keyword_analysis df tc keywords pfx = .ok dfk) :
    (dfs.rows.length = df.rows.length ∧
      ∀ i c, c ≠ "sentiment" → getCell dfs i c = getCell df i c)
    ∧ (dfk.rows.length = df.rows.length ∧
      ∀ i c, (∀ kw ∈ keywords, c ≠ pfx ++ "_" ++ kw) → c ≠ pfx ++ "_score" →
        getCell dfk i c = getCell df i c) := by
  obtain ⟨hc, hdfs⟩ := sentiment_analysis_ok hs
  obtain ⟨df1, hfold, hdfk⟩ := keyword_analysis_ok hk
  obtain ⟨hlen1, hcols1, hcells1⟩ := kaFold_preserve keywords df df1 hfold
  have hvl : ((df.rows.map (fun r => lookupVal r tc)).map
      (fun v => Val.num (pol (asStr v)))).length = df.rows.length := by simp
  have hsvl : (df1.rows.map (fun r =>
      Val.num ((keywords.map (fun kw => asNum (lookupVal r (pfx ++ "_" ++ kw)))).sum))).length
      = df1.rows.length := by simp
  refine ⟨⟨?_, ?_⟩, ?_, ?_⟩
  · rw [hdfs]
    exact rows_setCol_length _ _ _ hvl
  · intro i c hcne
    rw [hdfs, getCell_setCol_ne _ _ _ hcne hvl]
  · rw [hdfk, rows_setCol_length _ _ _ hsvl, hlen1]
  · intro i c hflags hscorene
    rw [hdfk, getCell_setCol_ne _ _ _ hscorene hsvl, hcells1 i c hflags]

theorem claim9_witness :
    (wSent.rows.length = wDf.rows.length ∧
      ∀ i c, c ≠ "sentiment" → getCell wSent i c = getCell wDf i c)
    ∧ (wKa.rows.length = wDf.rows.length ∧
      ∀ i c, (∀ kw ∈ ["merger"], c ≠ "merger" ++ "_" ++ kw) → c ≠ "merger" ++ "_score" →
        getCell wKa i c = getCell wDf i c) :=
  claim9_frame_preservation (fun _ => 0) wDf "full_text" ["merger"] "merger" wSent wKa
    (by with_unfolding_all decide) (by with_unfolding_all decide)

/-! ## C7: sentiment range and empty text -/

theorem isPrefixOf_nil_eq {l : List Char} (h : l ≠ []) : l.isPrefixOf [] = false := by
  cases l with
  | nil => exact absurd rfl h
  | cons a t => rfl

theorem flagVal_empty_text {kw : String} (h : kw ≠ "") : flagVal kw "" = 0 := by
  have hlk : lowerStr kw ≠ [] := by
    unfold lowerStr
    intro hnil
    rw [List.map_eq_nil_iff] at hnil
    exact h (String.ext (hnil.trans rfl))
  unfold flagVal
  rw [if_neg]
  intro hocc
  unfold occursIn at hocc
  rw [show lowerStr "" = [] from rfl] at hocc
  simp only [List.tails, List.any_cons, List.any_nil, Bool.or_false] at hocc
  rw [isPrefixOf_nil_eq hlk] at hocc
  exact absurd hocc (by simp)

/-- C7: under the specification's contract for the sentiment collaborator
(polarity always in `[-1, 1]`, empty string scoring `0`), every sentiment
cell attached by `sentiment_analysis` is the collaborator's polarity of the
record's text, hence lies in `[-1, 1]`; a record with empty text receives
sentiment exactly `0`; and the keyword flag of an empty text is `0` for
every non-empty keyword — in particular for every keyword of the four
lexicons, all of which are non-empty. -/
theorem claim7_sentiment_and_empty (pol : String → ℚ)
    (hrange : ∀ s, -1 ≤ pol s ∧ pol s ≤ 1) (hzero : pol "" = 0)
    (df : DataFrame) (tc : String) (df1 : DataFrame)
    (h : sentiment_analysis pol df tc = .ok df1) :
    (∀ i r, df.rows[i]? = some r →
      getCell df1 i "sentiment" = some (Val.num (pol (asStr (lookupVal r tc)))) ∧
      -1 ≤ pol (asStr (lookupVal r tc)) ∧ pol (asStr (lookupVal r tc)) ≤ 1)
    ∧ (∀ i r, df.rows[i]? = some r → asStr (lookupVal r tc) = "" →
      getCell df1 i "sentiment" = some (Val.num 0))
    ∧ (∀ kw : String, kw ≠ "" → flagVal kw "" = 0)
    ∧ (∀ kw ∈ MERGER_KEYWORDS ++ LAYOFF_KEYWORDS ++ REASSIGNMENT_KEYWORDS ++
        REDUCED_WORKLOAD_KEYWORDS, kw ≠ "") := by
  obtain ⟨hc, hdfs⟩ := sentiment_analysis_ok h
  have hcell : ∀ i r, df.rows[i]? = some r →
      getCell df1 i "sentiment" = some (Val.num (pol (asStr (lookupVal r tc)))) := by
    intro i r hr
    have hv : ((df.rows.map (fun r => lookupVal r tc)).map
        (fun v => Val.num (pol (asStr v))))[i]? =
        some (Val.num (pol (asStr (lookupVal r tc)))) := by
      rw [List.getElem?_map, List.getElem?_map, hr]
      rfl
    rw [hdfs]
    exact getCell_setCol_same df _ _ i hr hv
  refine ⟨fun i r hr => ⟨hcell i r hr, (hrange _).1, (hrange _).2⟩, ?_, ?_, by decide⟩
  · intro i r hr hempty
    have := hcell i r hr
    rw [hempty, hzero] at this
    exact this
  · intro kw hkw
    exact flagVal_empty_text hkw

theorem claim7_witness :
    (∀ i r, wDf.rows[i]? = some r →
      getCell wSent i "sentiment" =
        some (Val.num ((fun (_ : String) => (0 : ℚ)) (asStr (lookupVal r "full_text")))) ∧
      -1 ≤ (fun (_ : String) => (0 : ℚ)) (asStr (lookupVal r "full_text")) ∧
      (fun (_ : String) => (0 : ℚ)) (asStr (lookupVal r "full_text")) ≤ 1)
    ∧ (∀ i r, wDf.rows[i]? = some r → asStr (lookupVal r "full_text") = "" →
      getCell wSent i "sentiment" = some (Val.num 0))
    ∧ (∀ kw : String, kw ≠ "" → flagVal kw "" = 0)
    ∧ (∀ kw ∈ MERGER_KEYWORDS ++ LAYOFF_KEYWORDS ++ REASSIGNMENT_KEYWORDS ++
        REDUCED_WORKLOAD_KEYWORDS, kw ≠ "") :=
  claim7_sentiment_and_empty (fun _ => 0)
    (fun s => ⟨by norm_num, by norm_num⟩) rfl wDf "full_text" wSent
    (by with_unfolding_all decide)

/-! ## C8: per-category signals combine by plain addition -/

/-- C8: whenever `analyze_company` succeeds, each of the four signals in the
report equals the post-level signal strength plus the comment-level signal
strength of that category — plain addition, no normalization. -/
theorem claim8_additive_signals (pol : String → ℚ) (posts comments : List Row)
    (rep : Report) (h : analyze_company pol posts comments = .ok rep) :
    ∃ posts_df comments_df pm cm pl cl pr cr pw cw,
      annotatePosts pol posts = .ok posts_df ∧
      annotateComments pol comments = .ok comments_df ∧
      calculate_signal_strength posts_df "merger" = .ok pm ∧
      calculate_signal_strength comments_df "merger" = .ok cm ∧
      calculate_signal_strength posts_df "layoff" = .ok pl ∧
      calculate_signal_strength comments_df "layoff" = .ok cl ∧
      calculate_signal_strength posts_df "reassign" = .ok pr ∧
      calculate_signal_strength comments_df "reassign" = .ok cr ∧
      calculate_signal_strength posts_df "reduced_work" = .ok pw ∧
      calculate_signal_strength comments_df "reduced_work" = .ok cw ∧
      rep.merger_signal = pm + cm ∧ rep.layoff_signal = pl + cl ∧
      rep.reassign_signal = pr + cr ∧ rep.reduced_work_signal = pw + cw := by
  unfold analyze_company at h
  cases e1 : annotatePosts pol posts with
  | error err => rw [e1, error_bind] at h; exact absurd h (by simp)
  | ok posts_df =>
  rw [e1, ok_bind] at h
  cases e2 : annotateComments pol comments with
  | error err => rw [e2, error_bind] at h; exact absurd h (by simp)
  | ok comments_df =>
  rw [e2, ok_bind] at h
  cases e3 : getCol posts_df "full_text" with
  | error err => rw [e3, error_bind] at h; exact absurd h (by simp)
  | ok ptexts =>
  rw [e3, ok_bind] at h
  cases e4 : getCol comments_df "comment_body" with
  | error err => rw [e4, error_bind] at h; exact absurd h (by simp)
  | ok ctexts =>
  rw [e4, ok_bind] at h
  cases e5 : calculate_signal_strength posts_df "merger" with
  | error err => rw [e5, error_bind] at h; exact absurd h (by simp)
  | ok pm =>
  rw [e5, ok_bind] at h
  cases e6 : calculate_signal_strength comments_df "merger" with
  | error err => rw [e6, error_bind] at h; exact absurd h (by simp)
  | ok cm =>
  rw [e6, ok_bind] at h
  cases e7 : calculate_signal_strength posts_df "layoff" with
  | error err => rw [e7, error_bind] at h; exact absurd h (by simp)
  | ok pl =>
  rw [e7, ok_bind] at h
  cases e8 : calculate_signal_strength comments_df "layoff" with
  | error err => rw [e8, error_bind] at h; exact absurd h (by simp)
  | ok cl =>
  rw [e8, ok_bind] at h
  cases e9 : calculate_signal_strength posts_df "reassign" with
  | error err => rw [e9, error_bind] at h; exact absurd h (by simp)
  | ok pr =>
  rw [e9, ok_bind] at h
  cases e10 : calculate_signal_strength comments_df "reassign" with
  | error err => rw [e10, error_bind] at h; exact absurd h (by simp)
  | ok cr =>
  rw [e10, ok_bind] at h
  cases e11 : calculate_signal_strength posts_df "reduced_work" with
  | error err => rw [e11, error_bind] at h; exact absurd h (by simp)
  | ok pw =>
  rw [e11, ok_bind] at h
  cases e12 : calculate_signal_strength comments_df "reduced_work" with
  | error err => rw [e12, error_bind] at h; exact absurd h (by simp)
  | ok cw =>
  rw [e12, ok_bind] at h
  injection h with h
  subst h
  exact ⟨posts_df, comments_df, pm, cm, pl, cl, pr, cr, pw, cw,
    rfl, rfl, e5, e6, e7, e8, e9, e10, e11, e12, rfl, rfl, rfl, rfl⟩

theorem claim8_witness :
    ∃ posts_df comments_df pm cm pl cl pr cr pw cw,
      annotatePosts (fun _ => 0) wPosts = .ok posts_df ∧
      annotateComments (fun _ => 0) wComments = .ok comments_df ∧
      calculate_signal_strength posts_df "merger" = .ok pm ∧
      calculate_signal_strength comments_df "merger" = .ok cm ∧
      calculate_signal_strength posts_df "layoff" = .ok pl ∧
      calculate_signal_strength comments_df "layoff" = .ok cl ∧
      calculate_signal_strength posts_df "reassign" = .ok pr ∧
      calculate_signal_strength comments_df "reassign" = .ok cr ∧
      calculate_signal_strength posts_df "reduced_work" = .ok pw ∧
      calculate_signal_strength comments_df "reduced_work" = .ok cw ∧
      wRep.merger_signal = pm + cm ∧ wRep.layoff_signal = pl + cl ∧
      wRep.reassign_signal = pr + cr ∧ wRep.reduced_work_signal = pw + cw :=
  claim8_additive_signals (fun _ => 0) wPosts wComments wRep
    (by with_unfolding_all decide)

/-! ## C5: entity extraction on the example sentence -/

/-- C5, counterexample to "any text containing the phrase": a text that
contains "Example Corp was acquired by Sample Inc" as a substring but glues
word characters onto both ends; the `\b` anchors then reject both candidate
matches and `extract_companies` returns nothing at all. -/
theorem claim5_counterexample :
    occursIn ("Example Corp was acquired by Sample Inc".data)
      ("aExample Corp was acquired by Sample Inca".data) = true
    ∧ extract_companies "aExample Corp was acquired by Sample Inca" = [] := by
  decide

/-- C5 (amended): on the text "Example Corp was acquired by Sample Inc"
itself — where the phrase's boundaries are word boundaries —
`extract_companies` matches exactly "Example Corp" and "Sample Inc", and the
subsequent counter assigns each frequency 1 (also after `most_common 10`). -/
theorem claim5_extraction_example :
    extract_companies "Example Corp was acquired by Sample Inc" =
      ["Example Corp", "Sample Inc"]
    ∧ tally (extract_companies "Example Corp was acquired by Sample Inc") =
      [("Example Corp", 1), ("Sample Inc", 1)]
    ∧ most_common 10 (tally (extract_companies "Example Corp was acquired by Sample Inc")) =
      [("Example Corp", 1), ("Sample Inc", 1)] := by
  decide

/-! ## C10: shape of every extracted entity -/

theorem trySfx_shape : ∀ (ss : List String) (rest sd r3 : List Char),
    trySfx rest ss = some (sd, r3) → ∃ s ∈ ss, sd = s.data
  | [], rest, sd, r3, h => absurd h (by simp [trySfx])
  | s :: ss, rest, sd, r3, h => by
    unfold trySfx at h
    by_cases hc : (s.data.isPrefixOf rest && boundaryAfterOK (rest.drop s.data.length)) = true
    · rw [if_pos hc] at h
      injection h with h'
      injection h' with h1 h2
      exact ⟨s, List.mem_cons_self _ _, h1.symm⟩
    · rw [if_neg hc] at h
      obtain ⟨s', hs', hsd⟩ := trySfx_shape ss rest sd r3 h
      exact ⟨s', List.mem_cons_of_mem _ hs', hsd⟩

theorem matchCompany_shape {prev : Option Char} {l m r' : List Char}
    (h : matchCompany prev l = some (m, r')) :
    ∃ c low sd, m = c :: (low ++ ' ' :: sd) ∧ isUpperAZ c = true ∧ low ≠ [] ∧
      (∀ x ∈ low, isLowerAZ x = true) ∧ ∃ s ∈ suffixTokens, sd = s.data := by
  cases l with
  | nil => exact absurd h (by simp [matchCompany])
  | cons c rest =>
    simp only [matchCompany] at h
    split at h
    · rename_i hb
      split at h
      · exact absurd h (by simp)
      · rename_i hl
        split at h
        · rename_i rest2 hd
          split at h
          · rename_i sd r3 ht
            injection h with h'
            injection h' with h1 h2
            rw [Bool.and_eq_true] at hb
            exact ⟨c, _, sd, h1.symm, hb.2, hl,
              fun x hx => List.mem_takeWhile_imp hx, trySfx_shape _ _ _ _ ht⟩
          · exact absurd h (by simp)
        · exact absurd h (by simp)
    · exact absurd h (by simp)

theorem scanFuel_shape : ∀ (fuel : Nat) (prev : Option Char) (l : List Char) (s : String),
    s ∈ scanFuel fuel prev l →
    ∃ c low sd, s = String.mk (c :: (low ++ ' ' :: sd)) ∧ isUpperAZ c = true ∧ low ≠ [] ∧
      (∀ x ∈ low, isLowerAZ x = true) ∧ ∃ sfx ∈ suffixTokens, sd = sfx.data
  | 0, _, _, s => fun h => absurd h (List.not_mem_nil s)
  | _ + 1, _, [], s => fun h => absurd h (List.not_mem_nil s)
  | fuel + 1, prev, c :: rest, s => by
    intro h
    unfold scanFuel at h
    cases e : matchCompany prev (c :: rest) with
    | none =>
      rw [e] at h
      exact scanFuel_shape fuel (some c) rest s h
    | some p =>
      obtain ⟨m, rest'⟩ := p
      rw [e] at h
      rcases List.mem_cons.mp h with h1 | h1
      · obtain ⟨c0, low, sd, hm, hu, hlow_ne, hlow, hsfx⟩ := matchCompany_shape e
        exact ⟨c0, low, sd, by rw [h1, hm], hu, hlow_ne, hlow, hsfx⟩
      · exact scanFuel_shape fuel _ rest' s h1

/-- C10: every string `extract_companies` returns consists of exactly one
capitalized word (one `[A-Z]` character followed by a non-empty run of
`[a-z]` characters), one space, and one of the suffix tokens Inc, Corp, Co,
Ltd; in particular on "Acme Global Inc" only "Global Inc" is captured, never
the full multi-word name. -/
theorem claim10_match_shape :
    (∀ (text s : String), s ∈ extract_companies text →
      ∃ c low sd, s = String.mk (c :: (low ++ ' ' :: sd)) ∧ isUpperAZ c = true ∧
        low ≠ [] ∧ (∀ x ∈ low, isLowerAZ x = true) ∧
        ∃ sfx ∈ suffixTokens, sd = sfx.data)
    ∧ extract_companies "Acme Global Inc" = ["Global Inc"] := by
  refine ⟨?_, by decide⟩
  intro text s h
  exact scanFuel_shape _ none text.data s h

theorem claim10_witness :
    ∃ c low sd, "Global Inc" = String.mk (c :: (low ++ ' ' :: sd)) ∧ isUpperAZ c = true ∧
      low ≠ [] ∧ (∀ x ∈ low, isLowerAZ x = true) ∧
      ∃ sfx ∈ suffixTokens, sd = sfx.data :=
  claim10_match_shape.1 "Acme Global Inc" "Global Inc" (by decide)

/-! ## C6: most_common is a truncated stable descending sort -/

theorem filter_orderedInsert_of_snd_eq (c : Nat) (x : String × Nat)
    (l : List (String × Nat)) (hx : x.2 = c) :
    (List.orderedInsert descRel x l).filter (fun p => p.2 == c) =
      x :: l.filter (fun p => p.2 == c) := by
  induction l with
  | nil => simp [List.orderedInsert, hx]
  | cons y ys ih =>
    by_cases hr : descRel x y
    · simp [List.orderedInsert, hr, List.filter_cons, hx]
    · have hy : (y.2 == c) = false := by
        unfold descRel at hr
        simp only [beq_eq_false_iff_ne]
        omega
      simp only [List.orderedInsert, if_neg hr, List.filter_cons, hy]
      simp only [ih, List.filter_cons]
      rfl

theorem filter_orderedInsert_of_snd_ne (c : Nat) (x : String × Nat)
    (l : List (String × Nat)) (hx : x.2 ≠ c) :
    (List.orderedInsert descRel x l).filter (fun p => p.2 == c) =
      l.filter (fun p => p.2 == c) := by
  induction l with
  | nil => simp [List.orderedInsert, hx]
  | cons y ys ih =>
    by_cases hr : descRel x y
    · simp [List.orderedInsert, hr, List.filter_cons, hx]
    · simp only [List.orderedInsert, if_neg hr, List.filter_cons]
      rw [ih]

theorem filter_insertionSort (c : Nat) (l : List (String × Nat)) :
    (List.insertionSort descRel l).filter (fun p => p.2 == c) =
      l.filter (fun p => p.2 == c) := by
  induction l with
  | nil => rfl
  | cons x xs ih =>
    simp only [List.insertionSort]
    by_cases hx : x.2 = c
    · rw [filter_orderedInsert_of_snd_eq c x _ hx, ih, List.filter_cons, if_pos (by simp [hx])]
    · rw [filter_orderedInsert_of_snd_ne c x _ hx, ih, List.filter_cons, if_neg (by simp [hx])]

theorem tallyStep_fst (acc : List (String × Nat)) (a : String) :
    (tallyStep acc a).map Prod.fst = firstOccsStep (acc.map Prod.fst) a := by
  unfold tallyStep firstOccsStep
  by_cases hmem : acc.any (fun p => p.1 == a) = true
  · rw [if_pos hmem, if_pos]
    · rw [List.map_map]
      apply List.map_congr_left
      intro p hp
      simp only [Function.comp_apply]
      split <;> rfl
    · obtain ⟨p, hp, hpa⟩ := List.any_eq_true.mp hmem
      exact List.mem_map.mpr ⟨p, hp, by simpa using hpa⟩
  · rw [if_neg hmem, if_neg]
    · simp
    · intro hmm
      obtain ⟨p, hp, hpa⟩ := List.mem_map.mp hmm
      exact hmem (List.any_eq_true.mpr ⟨p, hp, by simp [hpa]⟩)

theorem tally_fst_aux : ∀ (l : List String) (acc : List (String × Nat)),
    (l.foldl tallyStep acc).map Prod.fst = l.foldl firstOccsStep (acc.map Prod.fst)
  | [], acc => rfl
  | a :: l, acc => by
    simp only [List.foldl_cons]
    rw [tally_fst_aux l (tallyStep acc a), tallyStep_fst]

theorem tally_fst_eq_firstOccs (l : List String) :
    (tally l).map Prod.fst = firstOccs l :=
  tally_fst_aux l []

/-- C6: `most_common 10` returns at most 10 entries, in weakly descending
frequency order; entries of equal frequency keep their order in the counter,
whose entry order is the order of first occurrence in the input list: for
every frequency `c`, the output's entries of frequency `c` are a prefix of
the counter's entries of frequency `c`. -/
theorem claim6_most_common (l : List String) :
    (most_common 10 (tally l)).length ≤ 10
    ∧ List.Pairwise descRel (most_common 10 (tally l))
    ∧ (∀ c : Nat, ∃ t2, (most_common 10 (tally l)).filter (fun p => p.2 == c) ++ t2 =
        (tally l).filter (fun p => p.2 == c))
    ∧ (tally l).map Prod.fst = firstOccs l := by
  refine ⟨?_, ?_, ?_, tally_fst_eq_firstOccs l⟩
  · rw [most_common, List.length_take]
    exact min_le_left _ _
  · exact List.Pairwise.sublist (List.take_sublist _ _)
      (List.sorted_insertionSort descRel (tally l))
  · intro c
    refine ⟨((List.insertionSort descRel (tally l)).drop 10).filter (fun p => p.2 == c), ?_⟩
    rw [most_common, ← List.filter_append, List.take_append_drop, filter_insertionSort]
